import Mathlib

/-!
# Verification of the XSD-to-object-model transformer

A shallow embedding of the recursive XSD-tree-to-object-model transformer
of the repository (src/index.js), together with proofs about it.

The embedding covers:

* the JS object model used for the output contexts (`Ctx`, an association
  list with JS property-assignment semantics: overwrite in place when the
  key exists, append otherwise);
* the XML DOM view the code consumes (`XMLNode`), as supplied by the
  external XML parser.  Following the XPath 1.0 data model used by the
  path-query collaborator, namespace declarations are not attribute
  nodes, so the `attributes` list holds only ordinary attributes; the
  attribute names are local names (XSD attributes are unprefixed);
* `addAllAttributes`, `processNode` (with its per-call mutable hook
  variables, which keep their values across loop iterations when a child
  has no dispatch entry), the `processors` dispatch table, and the
  `processSchema` driver, including the dead "Cannot specify both" guard
  (the schemaURL branch is a TODO that never assigns `xmlString`);
* `util.isEmptyString` and the namespace-map mutation `ns.xs = XML_SCHEMA_NS`
  performed on the caller's `options.namespaces` object.

Pre hooks in the source mutate the parent object and return the context
the recursion should fill (either a freshly inserted nested object or the
parent itself).  Because every nested context is reachable through exactly
one parent slot, this is rendered functionally by `applyPre`, which
returns the updated parent together with the key of the slot the recursion
result is written back to (`none` meaning the recursion continues in the
parent itself, as the documentation hook does).
-/

set_option autoImplicit false

namespace XsdToClasses

universe u

/-! ## JS objects as association lists -/

/-- JS property assignment on an object represented as an association
list: if the key is already present its value is overwritten in place
(property order is preserved), otherwise the new property is appended. -/
def setKey {α : Type u} : List (String × α) → String → α → List (String × α)
  | [], k, v => [(k, v)]
  | (k', v') :: rest, k, v =>
      if k' = k then (k, v) :: rest else (k', v') :: setKey rest k v

/-- JS property read: the value at the first occurrence of the key. -/
def getKey {α : Type u} : List (String × α) → String → Option α
  | [], _ => none
  | (k', v') :: rest, k => if k' = k then some v' else getKey rest k

/-- A value stored in an output context: a copied attribute value or text
value, the JS `null` (the `nodeValue` of a non-text node), or a nested
context object. -/
inductive CtxVal where
  | str : String → CtxVal
  | null : CtxVal
  | obj : List (String × CtxVal) → CtxVal

/-- An output context object (`ObjectContext` of the spec): a JS object
mapping string keys to values. -/
abbrev Ctx := List (String × CtxVal)

/-! ## The DOM view consumed by the transformer -/

/-- An XML attribute node: local name and value. -/
structure XMLAttr where
  name : String
  value : String
  deriving DecidableEq

mutual

/-- An XML node as the transformer sees it: an element with namespace
URI, local name, attribute nodes and child nodes, or a text node. -/
inductive XMLNode where
  | element (nsURI : String) (localName : String)
      (attributes : List XMLAttr) (childNodes : XMLNodeList)
  | text (value : String)

/-- The ordered child-node sequence of an element. -/
inductive XMLNodeList where
  | nil
  | cons (head : XMLNode) (tail : XMLNodeList)

end

namespace XMLNode

/-- The DOM `localName` of a node (text nodes have none). -/
def localName : XMLNode → String
  | .element _ ln _ _ => ln
  | .text _ => ""

/-- The attribute nodes of a node (text nodes have none). -/
def attributes : XMLNode → List XMLAttr
  | .element _ _ attrs _ => attrs
  | .text _ => []

/-- The child nodes of a node. -/
def childNodes : XMLNode → XMLNodeList
  | .element _ _ _ ch => ch
  | .text _ => .nil

/-- The DOM `nodeValue`: the text of a text node, JS `null` for an
element node. -/
def nodeValue : XMLNode → CtxVal
  | .text s => .str s
  | .element _ _ _ _ => .null

/-- The xmldom `getAttribute`: the value of the named attribute, or the
empty string when the attribute is absent (xmldom returns
`attr and attr.value or the empty string`). -/
def getAttribute (node : XMLNode) (name : String) : String :=
  match getKey (node.attributes.map fun a => (a.name, a.value)) name with
  | some v => v
  | none => ""

end XMLNode

/-- A fold over a child-node sequence. -/
def XMLNodeList.foldl {α : Type u} (f : α → XMLNode → α) : α → XMLNodeList → α
  | acc, .nil => acc
  | acc, .cons n rest => XMLNodeList.foldl f (f acc n) rest

/-! ## Attribute copying -/

/-- The source's `addAllAttributes`: iterate the `attribute` axis of the
node in document order and copy each attribute onto the context, unless
an exception list is supplied and contains the attribute's local name
(`not exceptions or not Array.isArray(exceptions) or not includes`;
a missing list means every attribute is copied). -/
def addAllAttributes (obj : Ctx) (node : XMLNode)
    (exceptionList : Option (List String)) : Ctx :=
  node.attributes.foldl
    (fun o a =>
      match exceptionList with
      | none => setKey o a.name (.str a.value)
      | some ex => if a.name ∈ ex then o else setKey o a.name (.str a.value))
    obj

/-! ## The dispatch table -/

/-- The behaviour of a pre hook in the `processors` table.  The three
identical closures of `element`, `complexType` and `simpleType` share the
`nameRef` behaviour; `attribute` uses the reversed `refName` fallback. -/
inductive PreKind where
  | nameRef
  | refName
  | extension
  | documentation
  deriving DecidableEq

/-- A row of the `processors` table: optional pre hook, optional post
hook, optional ignored-attribute list.  No row of the source table
defines a post hook; the field is kept because the traversal reads it. -/
structure Rule where
  pre : Option PreKind
  post : Option (Ctx → XMLNode → Ctx)
  ignoreAttrs : Option (List String)

/-- The state of the `preProcessor` / `postProcessor` / `nextIgnoreAttrs`
variables before any child with a dispatch entry has been seen. -/
def emptyRule : Rule := ⟨none, none, none⟩

/-- The table row shared by `element`, `complexType` and `simpleType`. -/
def nameRefRule : Rule := ⟨some .nameRef, none, some ["name", "ref"]⟩

/-- The table row of `extension`. -/
def extensionRule : Rule := ⟨some .extension, none, some ["base"]⟩

/-- The table row of `attribute`. -/
def attributeRule : Rule := ⟨some .refName, none, some ["name", "ref"]⟩

/-- The table row of `documentation` (no ignored-attribute list). -/
def documentationRule : Rule := ⟨some .documentation, none, none⟩

/-- The `processors` dispatch table, keyed by element local name. -/
def processors : String → Option Rule
  | "element" => some nameRefRule
  | "complexType" => some nameRefRule
  | "simpleType" => some nameRefRule
  | "extension" => some extensionRule
  | "attribute" => some attributeRule
  | "documentation" => some documentationRule
  | _ => none

/-- JS string disjunction `a or-else b`: a string is falsy exactly when
it is empty. -/
def jsOr (a b : String) : String := if a = "" then b else a

/-- One pre-hook invocation, rendered functionally: returns the updated
outer context together with the key under which the recursion context was
inserted (`none` when the hook returned the outer context itself).  Every
hook that returns a nested context has just set that slot to a fresh
empty object. -/
def applyPre (pk : PreKind) (obj : Ctx) (node : XMLNode) : Ctx × Option String :=
  match pk with
  | .nameRef =>
      let name := jsOr (node.getAttribute "name") (node.getAttribute "ref")
      (setKey obj name (.obj []), some name)
  | .refName =>
      let name := jsOr (node.getAttribute "ref") (node.getAttribute "name")
      (setKey obj name (.obj []), some name)
  | .extension =>
      (setKey (setKey obj "base" (.str (node.getAttribute "base")))
        "properties" (.obj []), some "properties")
  | .documentation =>
      (match node.childNodes with
       | .nil => obj
       | .cons c _ => setKey obj "comment" c.nodeValue, none)

/-- One post-hook invocation (the table defines no post hooks, so this
is always the identity in practice). -/
def applyPost (post : Option (Ctx → XMLNode → Ctx)) (obj : Ctx)
    (node : XMLNode) : Ctx :=
  match post with
  | none => obj
  | some f => f obj node

/-! ## The recursive tree transformer -/

mutual

/-- The source's `processNode`: copy the node's attributes onto the
context, then walk the element children with the hook variables
initially unset. -/
def processNode (obj : Ctx) (node : XMLNode)
    (ignoreAttrs : Option (List String)) : Ctx :=
  match node with
  | .text _ => obj
  | .element ns ln attrs ch =>
      processChildren
        (addAllAttributes obj (.element ns ln attrs ch) ignoreAttrs)
        ch emptyRule

/-- The child loop of `processNode`.  `sticky` holds the values of the
`preProcessor`, `postProcessor` and `nextIgnoreAttrs` variables: they
are reassigned only when the child's local name has a dispatch entry,
so a child without one is processed with the hooks of the most recent
dispatched sibling.  The `child axis` query yields element children
only, so text children are skipped.  (Every pre hook returns a truthy
object, so whenever a pre hook has run, `newObj` is the context it
returned; before any pre hook has run the recursion uses the current
context.) -/
def processChildren (obj : Ctx) (cs : XMLNodeList) (sticky : Rule) : Ctx :=
  match cs with
  | .nil => obj
  | .cons (.text _) rest => processChildren obj rest sticky
  | .cons (.element ns ln attrs ch) rest =>
      let r : Rule :=
        match processors ln with
        | some pr => pr
        | none => sticky
      match r.pre with
      | none =>
          let obj1 := processNode obj (.element ns ln attrs ch) r.ignoreAttrs
          processChildren (applyPost r.post obj1 (.element ns ln attrs ch)) rest r
      | some pk =>
          let p := applyPre pk obj (.element ns ln attrs ch)
          match p.2 with
          | none =>
              let obj1 := processNode p.1 (.element ns ln attrs ch) r.ignoreAttrs
              processChildren (applyPost r.post obj1 (.element ns ln attrs ch)) rest r
          | some k =>
              let sub := processNode [] (.element ns ln attrs ch) r.ignoreAttrs
              let obj1 := setKey p.1 k (.obj sub)
              processChildren (applyPost r.post obj1 (.element ns ln attrs ch)) rest r

end

/-! ## The schema driver -/

/-- The XML Schema namespace URI (`CONST.XML_SCHEMA_NS`). -/
def XML_SCHEMA_NS : String := "http://www.w3.org/2001/XMLSchema"

/-- The recognized options of `processSchema`.  A missing JS property is
`none`; `namespaces` is the caller's prefix-to-URI object. -/
structure Options where
  schemaURL : Option String
  schemaFile : Option String
  namespaces : Option (List (String × String))
  deriving DecidableEq

/-- The source's `util.isEmptyString`: true on a missing value (not a
string) and on a string that is empty or all whitespace. -/
def isEmptyString : Option String → Bool
  | none => true
  | some s => s.toList.all Char.isWhitespace

/-- An error thrown out of `processSchema`: an `exceptions.Exception`
carrying its message, or the error `fs.readFileSync` throws on an
unreadable file. -/
inductive PSError where
  | exception (msg : String)
  | ioError
  deriving DecidableEq

/-- The observable outcome of a `processSchema` call: on success, the
schema model that is built (and diagnostically serialized), the construct
names handed one by one to the code-emission step (`generateClasses`
runs the generator once per property of `schema.elements`), the state of
the caller's options object after the call, and whether the schema file
was read; on failure, the thrown error together with the same options
state and read flag. -/
inductive PSResult where
  | ok (model : Ctx) (emitted : List String) (options : Options) (fileRead : Bool)
  | error (e : PSError) (options : Options) (fileRead : Bool)

/-- The effect of `let ns = options.namespaces or empty; ns.xs = XML_SCHEMA_NS`
on the caller's options object: when `namespaces` is present, `ns` aliases
it and the assignment adds or overwrites its `xs` binding in place; when
it is absent, `ns` is a fresh object and the options are untouched.
`executeXPathLookup` repeats the same overwrite on every query, which is
idempotent, so the net effect is a single overwrite. -/
def mutNS (o : Options) : Options :=
  { o with namespaces := o.namespaces.map fun m => setKey m "xs" XML_SCHEMA_NS }

/-- Whether a top-level node is matched by the `/xs:schema` root query:
an element with local name `schema` in the XML Schema namespace (the
`xs` prefix is always bound to `XML_SCHEMA_NS`, overriding any
user-supplied `xs` binding). -/
def isSchemaRoot : XMLNode → Bool
  | .element ns ln _ _ => ns = XML_SCHEMA_NS && ln = "schema"
  | .text _ => false

/-- The tail of `processSchema` once a non-empty schema text is in hand:
mutate the caller's namespace object, parse the text, locate every
`/xs:schema` match, fold `processNode` over the matches into the fresh
`schema.elements` object, and emit once per property of the result. -/
def runTransform (options : Options) (s : String) (fileRead : Bool)
    (parse : String → List XMLNode) : PSResult :=
  let options1 := mutNS options
  let roots := (parse s).filter isSchemaRoot
  let elements := roots.foldl (fun acc n => processNode acc n none) []
  .ok [("elements", CtxVal.obj elements)] (elements.map Prod.fst) options1 fileRead

/-- The source's `processSchema`.  `fileContent` is what the file-reader
collaborator would return for `options.schemaFile` (`none` meaning the
read throws), and `parse` is the XML-parser collaborator, returning the
document's top-level node list.  The `schemaURL` branch of the source is
a TODO that performs no work and never assigns `xmlString`, so
`xmlString` is still unset when the `schemaFile` branch tests it: the
"Cannot specify both" guard can never fire. -/
def processSchema (options : Options) (fileContent : Option String)
    (parse : String → List XMLNode) : PSResult :=
  let xmlString : Option String := none
  if isEmptyString options.schemaFile then
    if isEmptyString xmlString then
      .error (.exception "Must specify either schemaURL or schemaFile") options false
    else
      runTransform options (xmlString.getD "") false parse
  else if !isEmptyString xmlString then
    .error (.exception "Cannot specify both schemaURL and schemaFile") options false
  else
    match fileContent with
    | none => .error .ioError options true
    | some s =>
        if isEmptyString (some s) then
          .error (.exception "Must specify either schemaURL or schemaFile") options true
        else
          runTransform options s true parse

/-! ## Derived notions used by the statements -/

/-- A sequence of JS property assignments applied in order. -/
def applyWrites {α : Type} (c : List (String × α)) (ws : List (String × α)) :
    List (String × α) :=
  ws.foldl (fun o w => setKey o w.1 w.2) c

/-- The effective write sequence of `addAllAttributes`: the node's
attributes in document order, minus those named in the exception list,
each as a string-valued property write. -/
def attrWrites (attrs : List XMLAttr) (exceptionList : Option (List String)) :
    List (String × CtxVal) :=
  let kept : List XMLAttr :=
    match exceptionList with
    | none => attrs
    | some l => attrs.filter fun a => a.name ∉ l
  kept.map fun a => (a.name, CtxVal.str a.value)

/-- Whether no element in a child sequence has a dispatch entry. -/
def XMLNodeList.allUnrecognized : XMLNodeList → Bool
  | .nil => true
  | .cons (.element _ ln _ _) rest => (processors ln).isNone && rest.allUnrecognized
  | .cons (.text _) rest => rest.allUnrecognized

/-- The hook-free treatment of one child: recurse into an element child
with the current context and no ignored-attribute list; a text child is
not on the `child` axis and is skipped. -/
def flatStep (o : Ctx) (c : XMLNode) : Ctx :=
  match c with
  | .text _ => o
  | .element ns ln attrs ch => processNode o (.element ns ln attrs ch) none

/-! ## Lemmas about JS property assignment -/

section KeyLemmas

variable {α : Type}

theorem getKey_setKey_self (c : List (String × α)) (k : String) (v : α) :
    getKey (setKey c k v) k = some v := by
  induction c with
  | nil => simp [setKey, getKey]
  | cons p rest ih =>
      by_cases h : p.1 = k <;> simp [setKey, getKey, h, ih]

theorem getKey_setKey_other (c : List (String × α)) {k k' : String} (v : α)
    (h : k' ≠ k) : getKey (setKey c k v) k' = getKey c k' := by
  induction c with
  | nil => simp [setKey, getKey, Ne.symm h]
  | cons p rest ih =>
      obtain ⟨pk, pv⟩ := p
      by_cases hp : pk = k
      · simp [setKey, getKey, hp, Ne.symm h]
      · by_cases hp' : pk = k' <;> simp [setKey, getKey, hp, hp', ih, h]

theorem setKey_setKey_same (c : List (String × α)) (k : String) (v w : α) :
    setKey (setKey c k v) k w = setKey c k w := by
  induction c with
  | nil => simp [setKey]
  | cons p rest ih =>
      by_cases h : p.1 = k <;> simp [setKey, h, ih]

theorem setKey_noop {c : List (String × α)} {k : String} {v : α}
    (h : getKey c k = some v) : setKey c k v = c := by
  induction c with
  | nil => simp [getKey] at h
  | cons p rest ih =>
      obtain ⟨pk, pv⟩ := p
      by_cases hp : pk = k
      · simp [getKey, hp] at h
        simp [setKey, hp, h]
      · simp [getKey, hp] at h
        simp [setKey, hp, ih h]

theorem mem_keys_setKey {c : List (String × α)} {k : String} (k' : String) (v : α)
    (h : k ∈ c.map Prod.fst) : k ∈ (setKey c k' v).map Prod.fst := by
  induction c with
  | nil => simp at h
  | cons p rest ih =>
      obtain ⟨pk, pv⟩ := p
      simp only [List.map_cons, List.mem_cons] at h
      by_cases hp : pk = k'
      · rcases h with h | h
        · simp [setKey, hp, hp ▸ h]
        · simp only [setKey, if_pos hp, List.map_cons, List.mem_cons]
          exact Or.inr h
      · simp only [setKey, if_neg hp, List.map_cons, List.mem_cons]
        rcases h with h | h
        · exact Or.inl h
        · exact Or.inr (ih h)

theorem mem_keys_setKey_self (c : List (String × α)) (k : String) (v : α) :
    k ∈ (setKey c k v).map Prod.fst := by
  induction c with
  | nil => simp [setKey]
  | cons p rest ih =>
      obtain ⟨pk, pv⟩ := p
      by_cases hp : pk = k <;> simp [setKey, hp, ih]

theorem setKey_comm_of_mem {c : List (String × α)} {k k' : String} (v v' : α)
    (hmem : k ∈ c.map Prod.fst) (hne : k ≠ k') :
    setKey (setKey c k v) k' v' = setKey (setKey c k' v') k v := by
  induction c with
  | nil => simp at hmem
  | cons p rest ih =>
      obtain ⟨pk, pv⟩ := p
      by_cases hp : pk = k
      · simp [setKey, hp, hne, Ne.symm hne]
      · by_cases hp' : pk = k'
        · simp [setKey, hp, hp', Ne.symm hne, hne]
        · have hmem' : k ∈ rest.map Prod.fst := by
            simp only [List.map_cons, List.mem_cons] at hmem
            rcases hmem with h | h
            · exact absurd h.symm hp
            · exact h
          simp [setKey, hp, hp', ih hmem']

theorem getKey_applyWrites_not_written {ws : List (String × α)}
    {k : String} (h : ∀ w ∈ ws, w.1 ≠ k) (c : List (String × α)) :
    getKey (applyWrites c ws) k = getKey c k := by
  induction ws generalizing c with
  | nil => rfl
  | cons w ws' ih =>
      have hk : getKey (applyWrites (setKey c w.1 w.2) ws') k
          = getKey (setKey c w.1 w.2) k :=
        ih (fun p hp => h p (List.mem_cons_of_mem _ hp)) _
      calc getKey (applyWrites c (w :: ws')) k
          = getKey (applyWrites (setKey c w.1 w.2) ws') k := rfl
        _ = getKey (setKey c w.1 w.2) k := hk
        _ = getKey c k :=
            getKey_setKey_other _ _ (Ne.symm (h w (List.mem_cons_self _ _)))

theorem mem_keys_applyWrites {c : List (String × α)} {k : String}
    (ws : List (String × α)) (h : k ∈ c.map Prod.fst) :
    k ∈ (applyWrites c ws).map Prod.fst := by
  induction ws generalizing c with
  | nil => exact h
  | cons w ws' ih => exact ih (mem_keys_setKey _ _ h)

theorem applyWrites_setKey_written {ws : List (String × α)} {k : String}
    (v : α) (hw : ∃ w ∈ ws, w.1 = k) {c : List (String × α)}
    (hmem : k ∈ c.map Prod.fst) :
    applyWrites (setKey c k v) ws = applyWrites c ws := by
  induction ws generalizing c with
  | nil => simp at hw
  | cons w ws' ih =>
      by_cases hk : w.1 = k
      · show applyWrites (setKey (setKey c k v) w.1 w.2) ws'
            = applyWrites (setKey c w.1 w.2) ws'
        rw [hk, setKey_setKey_same]
      · have hw' : ∃ p ∈ ws', p.1 = k := by
          rcases hw with ⟨p, hp, hpk⟩
          rcases List.mem_cons.mp hp with h | h
          · exact absurd (h ▸ hpk) hk
          · exact ⟨p, h, hpk⟩
        show applyWrites (setKey (setKey c k v) w.1 w.2) ws'
            = applyWrites (setKey c w.1 w.2) ws'
        rw [setKey_comm_of_mem _ _ hmem (Ne.symm hk)]
        exact ih hw' (mem_keys_setKey _ _ hmem)

theorem applyWrites_idem (ws : List (String × α)) (c : List (String × α)) :
    applyWrites (applyWrites c ws) ws = applyWrites c ws := by
  induction ws generalizing c with
  | nil => rfl
  | cons w ws' ih =>
      show applyWrites (setKey (applyWrites (setKey c w.1 w.2) ws') w.1 w.2) ws'
          = applyWrites (setKey c w.1 w.2) ws'
      by_cases hw : ∃ p ∈ ws', p.1 = w.1
      · rw [applyWrites_setKey_written _ hw
            (mem_keys_applyWrites _ (mem_keys_setKey_self _ _ _))]
        exact ih _
      · have hnw : ∀ p ∈ ws', p.1 ≠ w.1 := by
          intro p hp
          exact fun h => hw ⟨p, hp, h⟩
        have hval : getKey (applyWrites (setKey c w.1 w.2) ws') w.1 = some w.2 := by
          rw [getKey_applyWrites_not_written hnw, getKey_setKey_self]
        rw [setKey_noop hval]
        exact ih _

end KeyLemmas

theorem addAllAttributes_eq_applyWrites (obj : Ctx) (node : XMLNode)
    (exceptionList : Option (List String)) :
    addAllAttributes obj node exceptionList
      = applyWrites obj (attrWrites node.attributes exceptionList) := by
  unfold addAllAttributes
  generalize node.attributes = attrs
  cases exceptionList with
  | none =>
      induction attrs generalizing obj with
      | nil => rfl
      | cons a rest ih =>
          simpa [attrWrites, applyWrites] using ih (setKey obj a.name (.str a.value))
  | some l =>
      induction attrs generalizing obj with
      | nil => rfl
      | cons a rest ih =>
          by_cases h : a.name ∈ l
          · simpa [attrWrites, applyWrites, h] using ih obj
          · simpa [attrWrites, applyWrites, h] using ih (setKey obj a.name (.str a.value))

theorem getKey_addAllAttributes_ignored {a : String} {ex : List String}
    (ha : a ∈ ex) (c : Ctx) (node : XMLNode) :
    getKey (addAllAttributes c node (some ex)) a = getKey c a := by
  rw [addAllAttributes_eq_applyWrites]
  refine getKey_applyWrites_not_written ?_ c
  intro w hw
  simp only [attrWrites, List.mem_map, List.mem_filter, decide_eq_true_eq] at hw
  rcases hw with ⟨b, ⟨hb1, hb2⟩, rfl⟩
  show b.name ≠ a
  intro h
  exact hb2 (h ▸ ha)

/-! ## Step lemmas for the child loop -/

theorem processChildren_cons_nameRef (obj : Ctx) (sticky : Rule)
    (rest : XMLNodeList) (ns ln : String) (attrs : List XMLAttr)
    (ch : XMLNodeList)
    (hln : ln = "element" ∨ ln = "complexType" ∨ ln = "simpleType") :
    processChildren obj (.cons (.element ns ln attrs ch) rest) sticky
      = processChildren
          (setKey obj
            (jsOr ((XMLNode.element ns ln attrs ch).getAttribute "name")
              ((XMLNode.element ns ln attrs ch).getAttribute "ref"))
            (.obj (processNode [] (.element ns ln attrs ch) (some ["name", "ref"]))))
          rest nameRefRule := by
  rcases hln with rfl | rfl | rfl <;>
  · simp only [processChildren, processors, nameRefRule, applyPre, applyPost]
    rw [setKey_setKey_same]

theorem processChildren_cons_attribute (obj : Ctx) (sticky : Rule)
    (rest : XMLNodeList) (ns : String) (attrs : List XMLAttr)
    (ch : XMLNodeList) :
    processChildren obj (.cons (.element ns "attribute" attrs ch) rest) sticky
      = processChildren
          (setKey obj
            (jsOr ((XMLNode.element ns "attribute" attrs ch).getAttribute "ref")
              ((XMLNode.element ns "attribute" attrs ch).getAttribute "name"))
            (.obj (processNode [] (.element ns "attribute" attrs ch)
              (some ["name", "ref"]))))
          rest attributeRule := by
  simp only [processChildren, processors, attributeRule, applyPre, applyPost]
  rw [setKey_setKey_same]

theorem processChildren_cons_extension (obj : Ctx) (sticky : Rule)
    (rest : XMLNodeList) (ns : String) (attrs : List XMLAttr)
    (ch : XMLNodeList) :
    processChildren obj (.cons (.element ns "extension" attrs ch) rest) sticky
      = processChildren
          (setKey
            (setKey obj "base"
              (.str ((XMLNode.element ns "extension" attrs ch).getAttribute "base")))
            "properties"
            (.obj (processNode [] (.element ns "extension" attrs ch) (some ["base"]))))
          rest extensionRule := by
  simp only [processChildren, processors, extensionRule, applyPre, applyPost]
  rw [setKey_setKey_same]

theorem processChildren_all_unrecognized :
    ∀ (cs : XMLNodeList) (obj : Ctx), cs.allUnrecognized = true →
      processChildren obj cs emptyRule = XMLNodeList.foldl flatStep obj cs
  | .nil, _, _ => rfl
  | .cons (.text s) rest, obj, h => by
      simp only [processChildren, XMLNodeList.foldl, flatStep]
      exact processChildren_all_unrecognized rest obj h
  | .cons (.element ns ln attrs ch) rest, obj, h => by
      simp only [XMLNodeList.allUnrecognized, Bool.and_eq_true,
        Option.isNone_iff_eq_none] at h
      obtain ⟨h1, h2⟩ := h
      simp only [processChildren, h1, emptyRule, applyPost,
        XMLNodeList.foldl, flatStep]
      exact processChildren_all_unrecognized rest _ h2

/-! ## Claim theorems -/

/-- Claim C9: for every context object, node and ignored-attribute list,
running the attribute-copy step `addAllAttributes` twice in succession on
the same context-node pair yields the same context as running it once:
the copy is a pure overwrite with identical values, hence idempotent. -/
theorem claim_C9_addAllAttributes_idempotent (obj : Ctx) (node : XMLNode)
    (exceptionList : Option (List String)) :
    addAllAttributes (addAllAttributes obj node exceptionList) node exceptionList
      = addAllAttributes obj node exceptionList := by
  rw [addAllAttributes_eq_applyWrites, addAllAttributes_eq_applyWrites]
  exact applyWrites_idem _ _

/-- Claim C6: for every dispatched `extension` node, the outer context
gains a `base` key holding the node's `base` attribute value and a
`properties` key holding a freshly created nested context (built up from
the empty object by transforming the extension node into it with the
`base` attribute ignored), the extension's children being transformed
into that nested context rather than the parent; and the attribute-copy
step with the rule's ignored-attribute list never copies `base`. -/
theorem claim_C6_extension_base_and_properties (obj : Ctx) (sticky : Rule)
    (rest : XMLNodeList) (ns : String) (attrs : List XMLAttr)
    (ch : XMLNodeList) :
    processChildren obj (.cons (.element ns "extension" attrs ch) rest) sticky
      = processChildren
          (setKey
            (setKey obj "base"
              (.str ((XMLNode.element ns "extension" attrs ch).getAttribute "base")))
            "properties"
            (.obj (processNode [] (.element ns "extension" attrs ch) (some ["base"]))))
          rest extensionRule
    ∧ ∀ c : Ctx,
        getKey (addAllAttributes c (.element ns "extension" attrs ch) (some ["base"]))
            "base"
          = getKey c "base" :=
  ⟨processChildren_cons_extension obj sticky rest ns attrs ch,
   fun c => getKey_addAllAttributes_ignored (by simp) c _⟩

/-- Claim C4 counterexample: an `element` node carrying the name
attribute with value `""` and a ref attribute `"R"` is keyed by `"R"`,
not by its name value: the JS fallback `name or-else ref` treats the
empty string as falsy.  The transformed parent has no `""` key and holds
the nested context under `"R"` instead. -/
theorem claim_C4_counterexample :
    processNode []
      (.element "u" "p" []
        (.cons (.element "u" "element" [⟨"name", ""⟩, ⟨"ref", "R"⟩] .nil) .nil))
      none
      = [("R", .obj [])]
    ∧ getKey
        (processNode []
          (.element "u" "p" []
            (.cons (.element "u" "element" [⟨"name", ""⟩, ⟨"ref", "R"⟩] .nil) .nil))
          none) ""
      = none :=
  ⟨rfl, rfl⟩

/-- Claim C4, amended: for every `element`, `complexType` or `simpleType`
node carrying a name attribute with a NON-EMPTY value, the nested context
it produces in the parent is keyed exactly by that name value, and the
attribute-copy step with the rule's ignored-attribute list copies neither
`name` nor `ref` into the nested context. -/
theorem claim_C4_amended_name_keying (obj : Ctx) (sticky : Rule)
    (rest : XMLNodeList) (ns ln : String) (attrs : List XMLAttr)
    (ch : XMLNodeList)
    (hln : ln = "element" ∨ ln = "complexType" ∨ ln = "simpleType")
    (hname : (XMLNode.element ns ln attrs ch).getAttribute "name" ≠ "") :
    processChildren obj (.cons (.element ns ln attrs ch) rest) sticky
      = processChildren
          (setKey obj ((XMLNode.element ns ln attrs ch).getAttribute "name")
            (.obj (processNode [] (.element ns ln attrs ch) (some ["name", "ref"]))))
          rest nameRefRule
    ∧ ∀ c : Ctx,
        getKey (addAllAttributes c (.element ns ln attrs ch) (some ["name", "ref"]))
            "name"
          = getKey c "name"
        ∧ getKey (addAllAttributes c (.element ns ln attrs ch) (some ["name", "ref"]))
            "ref"
          = getKey c "ref" := by
  have hj : jsOr ((XMLNode.element ns ln attrs ch).getAttribute "name")
      ((XMLNode.element ns ln attrs ch).getAttribute "ref")
      = (XMLNode.element ns ln attrs ch).getAttribute "name" := by
    unfold jsOr
    rw [if_neg hname]
  constructor
  · rw [processChildren_cons_nameRef obj sticky rest ns ln attrs ch hln, hj]
  · intro c
    exact ⟨getKey_addAllAttributes_ignored (by simp) c _,
      getKey_addAllAttributes_ignored (by simp) c _⟩

/-- Claim C4 witness: a concrete `element` node with name `"N"`,
ref `"R"` and a `type` attribute is keyed by `"N"`, and the copy step
leaves `name` and `ref` out. -/
theorem claim_C4_amended_witness :
    processChildren []
        (.cons (.element "u" "element"
          [⟨"name", "N"⟩, ⟨"ref", "R"⟩, ⟨"type", "T"⟩] .nil) .nil) emptyRule
      = processChildren
          (setKey []
            ((XMLNode.element "u" "element"
              [⟨"name", "N"⟩, ⟨"ref", "R"⟩, ⟨"type", "T"⟩] .nil).getAttribute "name")
            (.obj (processNode []
              (.element "u" "element"
                [⟨"name", "N"⟩, ⟨"ref", "R"⟩, ⟨"type", "T"⟩] .nil)
              (some ["name", "ref"]))))
          .nil nameRefRule
    ∧ ∀ c : Ctx,
        getKey (addAllAttributes c
            (.element "u" "element"
              [⟨"name", "N"⟩, ⟨"ref", "R"⟩, ⟨"type", "T"⟩] .nil)
            (some ["name", "ref"])) "name"
          = getKey c "name"
        ∧ getKey (addAllAttributes c
            (.element "u" "element"
              [⟨"name", "N"⟩, ⟨"ref", "R"⟩, ⟨"type", "T"⟩] .nil)
            (some ["name", "ref"])) "ref"
          = getKey c "ref" :=
  claim_C4_amended_name_keying [] emptyRule .nil "u" "element"
    [⟨"name", "N"⟩, ⟨"ref", "R"⟩, ⟨"type", "T"⟩] .nil (Or.inl rfl) (by decide)

/-- Claim C5 counterexample: an `attribute` node carrying the ref
attribute with value `""` and a name attribute `"N"` is keyed by `"N"`,
not by its ref value: the JS fallback `ref or-else name` treats the
empty string as falsy. -/
theorem claim_C5_counterexample :
    processNode []
      (.element "u" "p" []
        (.cons (.element "u" "attribute" [⟨"ref", ""⟩, ⟨"name", "N"⟩] .nil) .nil))
      none
      = [("N", .obj [])]
    ∧ getKey
        (processNode []
          (.element "u" "p" []
            (.cons (.element "u" "attribute" [⟨"ref", ""⟩, ⟨"name", "N"⟩] .nil) .nil))
          none) ""
      = none :=
  ⟨rfl, rfl⟩

/-- Claim C5, amended: for every `attribute` node carrying a ref
attribute with a NON-EMPTY value, the nested context it produces in the
parent is keyed exactly by that ref value, whatever the name attribute
is: ref takes precedence over name, the reverse of the
element/complexType/simpleType precedence. -/
theorem claim_C5_amended_ref_precedence (obj : Ctx) (sticky : Rule)
    (rest : XMLNodeList) (ns : String) (attrs : List XMLAttr)
    (ch : XMLNodeList)
    (href : (XMLNode.element ns "attribute" attrs ch).getAttribute "ref" ≠ "") :
    processChildren obj (.cons (.element ns "attribute" attrs ch) rest) sticky
      = processChildren
          (setKey obj ((XMLNode.element ns "attribute" attrs ch).getAttribute "ref")
            (.obj (processNode [] (.element ns "attribute" attrs ch)
              (some ["name", "ref"]))))
          rest attributeRule := by
  have hj : jsOr ((XMLNode.element ns "attribute" attrs ch).getAttribute "ref")
      ((XMLNode.element ns "attribute" attrs ch).getAttribute "name")
      = (XMLNode.element ns "attribute" attrs ch).getAttribute "ref" := by
    unfold jsOr
    rw [if_neg href]
  rw [processChildren_cons_attribute obj sticky rest ns attrs ch, hj]

/-- Claim C5 witness: a concrete `attribute` node carrying both
ref `"R"` and name `"N"` is keyed by `"R"`. -/
theorem claim_C5_amended_witness :
    processChildren []
        (.cons (.element "u" "attribute" [⟨"ref", "R"⟩, ⟨"name", "N"⟩] .nil) .nil)
        emptyRule
      = processChildren
          (setKey []
            ((XMLNode.element "u" "attribute"
              [⟨"ref", "R"⟩, ⟨"name", "N"⟩] .nil).getAttribute "ref")
            (.obj (processNode []
              (.element "u" "attribute" [⟨"ref", "R"⟩, ⟨"name", "N"⟩] .nil)
              (some ["name", "ref"]))))
          .nil attributeRule :=
  claim_C5_amended_ref_precedence [] emptyRule .nil "u"
    [⟨"ref", "R"⟩, ⟨"name", "N"⟩] .nil (by decide)

/-- Claim C10: a keyed construct (`element`, `complexType`, `simpleType`
or `attribute`) carrying neither a name nor a ref attribute is neither
dropped nor a failure: `getAttribute` returns the empty string for an
absent attribute, the fallback evaluates to `""`, and the pre hook
inserts the nested context into the parent under the key `""`; a later
such sibling silently overwrites an earlier one, so after two such
siblings the `""` slot holds the second sibling's context. -/
theorem claim_C10_empty_key_fallback :
    (∀ (obj : Ctx) (sticky : Rule) (rest : XMLNodeList) (ns ln : String)
        (attrs : List XMLAttr) (ch : XMLNodeList),
      ln ∈ (["element", "complexType", "simpleType", "attribute"] : List String) →
      (XMLNode.element ns ln attrs ch).getAttribute "name" = "" →
      (XMLNode.element ns ln attrs ch).getAttribute "ref" = "" →
      processChildren obj (.cons (.element ns ln attrs ch) rest) sticky
        = processChildren
            (setKey obj ""
              (.obj (processNode [] (.element ns ln attrs ch) (some ["name", "ref"]))))
            rest ((processors ln).getD emptyRule))
    ∧ (∀ (obj : Ctx) (sticky : Rule) (rest : XMLNodeList)
        (ns1 ln1 : String) (attrs1 : List XMLAttr) (ch1 : XMLNodeList)
        (ns2 ln2 : String) (attrs2 : List XMLAttr) (ch2 : XMLNodeList),
      ln1 ∈ (["element", "complexType", "simpleType", "attribute"] : List String) →
      (XMLNode.element ns1 ln1 attrs1 ch1).getAttribute "name" = "" →
      (XMLNode.element ns1 ln1 attrs1 ch1).getAttribute "ref" = "" →
      ln2 ∈ (["element", "complexType", "simpleType", "attribute"] : List String) →
      (XMLNode.element ns2 ln2 attrs2 ch2).getAttribute "name" = "" →
      (XMLNode.element ns2 ln2 attrs2 ch2).getAttribute "ref" = "" →
      processChildren obj
          (.cons (.element ns1 ln1 attrs1 ch1)
            (.cons (.element ns2 ln2 attrs2 ch2) rest)) sticky
        = processChildren
            (setKey obj ""
              (.obj (processNode [] (.element ns2 ln2 attrs2 ch2)
                (some ["name", "ref"]))))
            rest ((processors ln2).getD emptyRule)) := by
  have step : ∀ (obj : Ctx) (sticky : Rule) (rest : XMLNodeList) (ns ln : String)
      (attrs : List XMLAttr) (ch : XMLNodeList),
      ln ∈ (["element", "complexType", "simpleType", "attribute"] : List String) →
      (XMLNode.element ns ln attrs ch).getAttribute "name" = "" →
      (XMLNode.element ns ln attrs ch).getAttribute "ref" = "" →
      processChildren obj (.cons (.element ns ln attrs ch) rest) sticky
        = processChildren
            (setKey obj ""
              (.obj (processNode [] (.element ns ln attrs ch) (some ["name", "ref"]))))
            rest ((processors ln).getD emptyRule) := by
    intro obj sticky rest ns ln attrs ch hln hname href
    simp only [List.mem_cons, List.mem_singleton, List.not_mem_nil, or_false] at hln
    rcases hln with rfl | rfl | rfl | rfl
    · rw [processChildren_cons_nameRef obj sticky rest ns _ attrs ch (Or.inl rfl),
        hname, href]
      rfl
    · rw [processChildren_cons_nameRef obj sticky rest ns _ attrs ch
        (Or.inr (Or.inl rfl)), hname, href]
      rfl
    · rw [processChildren_cons_nameRef obj sticky rest ns _ attrs ch
        (Or.inr (Or.inr rfl)), hname, href]
      rfl
    · rw [processChildren_cons_attribute obj sticky rest ns attrs ch, href, hname]
      rfl
  refine ⟨step, ?_⟩
  intro obj sticky rest ns1 ln1 attrs1 ch1 ns2 ln2 attrs2 ch2
    hln1 hname1 href1 hln2 hname2 href2
  rw [step obj sticky _ ns1 ln1 attrs1 ch1 hln1 hname1 href1,
    step _ _ rest ns2 ln2 attrs2 ch2 hln2 hname2 href2,
    setKey_setKey_same]

/-- Claim C10 witness: two keyless `element` siblings are both accepted,
each inserted under the key `""`, the second overwriting the first. -/
theorem claim_C10_witness :
    processChildren []
        (.cons (.element "u" "element" [⟨"type", "T1"⟩] .nil)
          (.cons (.element "u" "element" [⟨"type", "T2"⟩] .nil) .nil)) emptyRule
      = processChildren
          (setKey [] ""
            (.obj (processNode [] (.element "u" "element" [⟨"type", "T2"⟩] .nil)
              (some ["name", "ref"]))))
          .nil ((processors "element").getD emptyRule) :=
  claim_C10_empty_key_fallback.2 [] emptyRule .nil
    "u" "element" [⟨"type", "T1"⟩] .nil
    "u" "element" [⟨"type", "T2"⟩] .nil
    (by decide) (by decide) (by decide) (by decide) (by decide) (by decide)

/-- Claim C2 counterexample: an unrecognized child IS affected by which
siblings were processed before it.  In a parent whose children are a
dispatched `element` named `A` followed by an unrecognized `foo` with an
attribute `x="1"`, the loop variables still hold the `element` rule when
`foo` is reached, so the stale pre hook runs on `foo`: its attributes are
NOT folded flatly into the parent context (no `x` key there) but end up
in a nested context inserted under the key `""`. -/
theorem claim_C2_counterexample :
    processNode []
      (.element "u" "p" []
        (.cons (.element "u" "element" [⟨"name", "A"⟩] .nil)
          (.cons (.element "u" "foo" [⟨"x", "1"⟩] .nil) .nil)))
      none
      = [("A", .obj []), ("", .obj [("x", .str "1")])]
    ∧ getKey
        (processNode []
          (.element "u" "p" []
            (.cons (.element "u" "element" [⟨"name", "A"⟩] .nil)
              (.cons (.element "u" "foo" [⟨"x", "1"⟩] .nil) .nil)))
          none) "x"
      = none :=
  ⟨rfl, rfl⟩

/-- Claim C2, amended: a child whose local name has no dispatch entry is
processed with the hook variables as last assigned, i.e. with the rule of
the most recent earlier sibling that had a dispatch entry.  Only when no
earlier sibling in the same child loop was dispatched does the claimed
fallback hold; in particular, for every node ALL of whose element
children are unrecognized, each child is recursed into with the current
(parent) context, no pre hook, no post hook and no ignored-attribute
list, so all the children's attributes and children fold flatly into the
parent context. -/
theorem claim_C2_amended_flat_fold (obj : Ctx) (ia : Option (List String))
    (ns ln : String) (attrs : List XMLAttr) (cs : XMLNodeList)
    (h : cs.allUnrecognized = true) :
    processNode obj (.element ns ln attrs cs) ia
      = XMLNodeList.foldl flatStep
          (addAllAttributes obj (.element ns ln attrs cs) ia) cs := by
  simp only [processNode]
  exact processChildren_all_unrecognized cs _ h

/-- Claim C2 witness: a parent with two unrecognized children folds both
flatly into the parent context. -/
theorem claim_C2_amended_witness :
    processNode []
        (.element "u" "p" [⟨"a", "v"⟩]
          (.cons (.element "u" "foo" [⟨"x", "1"⟩] .nil)
            (.cons (.element "u" "bar" [⟨"y", "2"⟩] .nil) .nil)))
        none
      = XMLNodeList.foldl flatStep
          (addAllAttributes []
            (.element "u" "p" [⟨"a", "v"⟩]
              (.cons (.element "u" "foo" [⟨"x", "1"⟩] .nil)
                (.cons (.element "u" "bar" [⟨"y", "2"⟩] .nil) .nil)))
            none)
          (.cons (.element "u" "foo" [⟨"x", "1"⟩] .nil)
            (.cons (.element "u" "bar" [⟨"y", "2"⟩] .nil) .nil)) :=
  claim_C2_amended_flat_fold [] none "u" "p" [⟨"a", "v"⟩]
    (.cons (.element "u" "foo" [⟨"x", "1"⟩] .nil)
      (.cons (.element "u" "bar" [⟨"y", "2"⟩] .nil) .nil)) (by rfl)

/-- Helper: with a non-empty schemaFile and non-blank file content, the
driver reads the file and proceeds to the transform, regardless of
schemaURL (the URL branch never assigns the schema text). -/
theorem processSchema_reads_file (options : Options) (s : String)
    (parse : String → List XMLNode)
    (hfile : isEmptyString options.schemaFile = false)
    (hcontent : isEmptyString (some s) = false) :
    processSchema options (some s) parse = runTransform options s true parse := by
  have hnone : isEmptyString (none : Option String) = true := rfl
  simp only [processSchema, hnone, hfile, hcontent, Bool.not_true,
    Bool.false_eq_true, if_false, if_true, eq_self_iff_true]

/-- Claim C1: for every configuration that loads a schema document whose
root `xs:schema` (attribute-free: namespace declarations are not
attribute nodes) contains exactly one top-level `element` child with
attributes `name="Foo"` and `type="xs:string"` and no other children,
`processSchema` produces the model with exactly the one root key
`elements`, whose nested context is keyed by the element's name and
holds exactly the `type` attribute, and emits exactly the construct name
`Foo`. -/
theorem claim_C1_single_foo_element (options : Options) (s : String)
    (parse : String → List XMLNode) (cns : String)
    (hfile : isEmptyString options.schemaFile = false)
    (hcontent : isEmptyString (some s) = false)
    (hparse : parse s
      = [.element XML_SCHEMA_NS "schema" []
          (.cons (.element cns "element"
            [⟨"name", "Foo"⟩, ⟨"type", "xs:string"⟩] .nil) .nil)]) :
    processSchema options (some s) parse
      = .ok [("elements", .obj [("Foo", .obj [("type", .str "xs:string")])])]
          ["Foo"] (mutNS options) true := by
  rw [processSchema_reads_file options s parse hfile hcontent]
  simp only [runTransform]
  rw [hparse]
  rfl

/-- Claim C1 witness: a concrete run on the one-element Foo schema. -/
theorem claim_C1_witness :
    processSchema ⟨none, some "schema.xsd", none⟩ (some "<xsd/>")
        (fun _ => [.element XML_SCHEMA_NS "schema" []
          (.cons (.element XML_SCHEMA_NS "element"
            [⟨"name", "Foo"⟩, ⟨"type", "xs:string"⟩] .nil) .nil)])
      = .ok [("elements", .obj [("Foo", .obj [("type", .str "xs:string")])])]
          ["Foo"] (mutNS ⟨none, some "schema.xsd", none⟩) true :=
  claim_C1_single_foo_element ⟨none, some "schema.xsd", none⟩ "<xsd/>" _
    XML_SCHEMA_NS (by rfl) (by rfl) rfl

/-- Claim C3 evaluated at its failing input: with BOTH schemaURL and
schemaFile non-empty and the file readable, `processSchema` does NOT
throw the "Cannot specify both schemaURL and schemaFile" ConfigError
before any I/O; it reads the file (the read flag is true) and completes
the whole run successfully.  The guard is dead code because the URL
branch is an unimplemented TODO that never assigns the schema text the
guard tests. -/
theorem claim_C3_both_sources_reads_file_anyway :
    processSchema
        ⟨some "http://example.com/schema.xsd", some "schema.xsd", none⟩
        (some "<xsd/>")
        (fun _ => [.element XML_SCHEMA_NS "schema" []
          (.cons (.element XML_SCHEMA_NS "element"
            [⟨"name", "Foo"⟩, ⟨"type", "xs:string"⟩] .nil) .nil)])
      = .ok [("elements", .obj [("Foo", .obj [("type", .str "xs:string")])])]
          ["Foo"]
          ⟨some "http://example.com/schema.xsd", some "schema.xsd", none⟩ true :=
  rfl

/-- Claim C7: with a non-empty schemaURL and an absent or empty
schemaFile, `processSchema` does fail, but with the unrelated
"Must specify either schemaURL or schemaFile" error rather than any
"not supported" condition: the URL branch is an unimplemented TODO that
never assigns the schema text, so the must-specify check fires even
though a source was specified. -/
theorem claim_C7_url_only_misleading_error (options : Options)
    (fileContent : Option String) (parse : String → List XMLNode)
    (_hurl : isEmptyString options.schemaURL = false)
    (hfile : isEmptyString options.schemaFile = true) :
    processSchema options fileContent parse
      = .error (.exception "Must specify either schemaURL or schemaFile")
          options false := by
  simp only [processSchema, hfile, if_true, eq_self_iff_true]
  rfl

/-- Claim C7 witness: the concrete URL-only configuration. -/
theorem claim_C7_witness :
    processSchema ⟨some "http://example.com/schema.xsd", none, none⟩ none
        (fun _ => [])
      = .error (.exception "Must specify either schemaURL or schemaFile")
          ⟨some "http://example.com/schema.xsd", none, none⟩ false :=
  claim_C7_url_only_misleading_error
    ⟨some "http://example.com/schema.xsd", none, none⟩ none (fun _ => [])
    (by rfl) (by rfl)

/-- Claim C8 counterexample: `processSchema` mutates the caller-supplied
options object.  `let ns = options.namespaces or empty; ns.xs = ...`
aliases the caller's namespaces object, so after a successful run the
options carry an added `xs` binding: the returned options state differs
from the options passed in. -/
theorem claim_C8_counterexample :
    processSchema ⟨none, some "schema.xsd", some [("foo", "urn:foo")]⟩
        (some "<xsd/>")
        (fun _ => [.element XML_SCHEMA_NS "schema" []
          (.cons (.element XML_SCHEMA_NS "element"
            [⟨"name", "Foo"⟩, ⟨"type", "xs:string"⟩] .nil) .nil)])
      = .ok [("elements", .obj [("Foo", .obj [("type", .str "xs:string")])])]
          ["Foo"]
          ⟨none, some "schema.xsd",
            some [("foo", "urn:foo"), ("xs", XML_SCHEMA_NS)]⟩ true
    ∧ (⟨none, some "schema.xsd",
          some [("foo", "urn:foo"), ("xs", XML_SCHEMA_NS)]⟩ : Options)
        ≠ ⟨none, some "schema.xsd", some [("foo", "urn:foo")]⟩ :=
  ⟨rfl, by decide⟩

/-- Claim C8, amended: beyond producing the model and emitting once per
top-level construct name, `processSchema` has exactly one further side
effect on the caller: when `options.namespaces` is present, a successful
run adds or overwrites its `xs` binding with the XML Schema namespace
URI (when it is absent, or when the run fails before the namespace
merge, the options object is unchanged). -/
theorem claim_C8_amended_options_mutation (options : Options)
    (fileContent : Option String) (parse : String → List XMLNode) :
    (∀ m e o fr, processSchema options fileContent parse = .ok m e o fr →
      o = mutNS options)
    ∧ (∀ err o fr, processSchema options fileContent parse = .error err o fr →
      o = options) := by
  have hnone : isEmptyString (none : Option String) = true := rfl
  constructor
  · intro m e o fr h
    simp only [processSchema, hnone, Bool.not_true, Bool.false_eq_true,
      if_false, if_true, eq_self_iff_true] at h
    split at h
    · exact PSResult.noConfusion h
    · split at h
      · exact PSResult.noConfusion h
      · split at h
        · exact PSResult.noConfusion h
        · simp only [runTransform] at h
          injection h with h1 h2 h3 h4
          exact h3.symm
  · intro err o fr h
    simp only [processSchema, hnone, Bool.not_true, Bool.false_eq_true,
      if_false, if_true, eq_self_iff_true] at h
    split at h
    · injection h with h1 h2
      exact h2.symm
    · split at h
      · injection h with h1 h2
        exact h2.symm
      · split at h
        · injection h with h1 h2
          exact h2.symm
        · simp only [runTransform] at h
          exact PSResult.noConfusion h

/-- Claim C8 witness: a successful concrete run returns the options with
the `xs` binding appended to the caller's namespaces object. -/
theorem claim_C8_amended_witness :
    (⟨none, some "schema.xsd",
        some [("foo", "urn:foo"), ("xs", XML_SCHEMA_NS)]⟩ : Options)
      = mutNS ⟨none, some "schema.xsd", some [("foo", "urn:foo")]⟩ :=
  (claim_C8_amended_options_mutation
      ⟨none, some "schema.xsd", some [("foo", "urn:foo")]⟩ (some "<xsd/>")
      (fun _ => [.element XML_SCHEMA_NS "schema" []
        (.cons (.element XML_SCHEMA_NS "element"
          [⟨"name", "Foo"⟩, ⟨"type", "xs:string"⟩] .nil) .nil)])).1
    [("elements", .obj [("Foo", .obj [("type", .str "xs:string")])])] ["Foo"]
    ⟨none, some "schema.xsd", some [("foo", "urn:foo"), ("xs", XML_SCHEMA_NS)]⟩
    true rfl

end XsdToClasses
